import Mathlib

/-!
Verification of the process-table widget core
(`src/canvas/widgets/process_table.rs`).

The Rust source is shallowly embedded below.  Machine integers are
modelled as `Nat` (for `u64`/`usize`/`u16` values) and `Int` (for the
`i64` row counter), with two's-complement wrap-around made explicit via
`% 2 ^ 64` where the source can overflow; release-mode (wrapping)
semantics are used for arithmetic that would panic in debug builds, and
such places are noted.  Fallible computations return `Option`.

Functions that live in `canvas/drawing_utils.rs` (not part of this
source slice) are modelled from the specification and carry a
`Modelled from the spec:` note in their doc comment.
-/

set_option autoImplicit false

namespace ProcessTable

/-- Focus position (`app::WidgetPosition`); only the variants relevant to
this widget are distinguished. `Process` is the table focus,
`ProcessSearch` the search-field focus. -/
inductive WidgetPosition where
  | Process
  | ProcessSearch
  | Other
  deriving DecidableEq

/-- The text styles handed to the renderer (`self.colours.*` in the
source): plain text, the currently-selected style, and the table-header
style. -/
inductive Style where
  | text
  | selected
  | header
  deriving DecidableEq

/-! ### Machine-integer helpers -/

/-- Reinterpretation of an `i64` value as `u64` (the Rust `as u64`
cast): reduction modulo `2 ^ 64`. -/
def i64ToU64 (c : Int) : Nat := (c % (2 ^ 64 : Int)).toNat

/-- Wrapping increment of an `i64` value (release-mode `+= 1`). -/
def i64Inc (c : Int) : Int := if c = 2 ^ 63 - 1 then -(2 ^ 63) else c + 1

/-- Wrapping `u64` subtraction `a - b` (release-mode semantics), for
`a, b < 2 ^ 64`. -/
def u64Sub (a b : Nat) : Nat := (a + 2 ^ 64 - b) % 2 ^ 64

/-! ### Row styling in `draw_processes_table` (source lines 94-132)

The source walks the sliced process list with a mutable
`process_counter : i64` initialised to `0`.  When the focus is on the
table and `process_counter as u64` equals
`current_scroll_position - start_position` (a `u64` subtraction), the
row is styled with the selected style and the counter is set to `-1`;
otherwise the row gets the plain text style and the counter is
incremented when it is still non-negative.
-/

/-- One step of the row-styling `match` (source lines 111-130): given
the focus, the relative selection `rel` (the `u64` value of
`current_scroll_position - start_position`) and the current counter,
produce the style of this row and the next counter value. -/
def processRowStyle (focus : WidgetPosition) (rel : Nat) (counter : Int) : Style × Int :=
  match focus with
  | .Process =>
      if i64ToU64 counter = rel then (.selected, -1)
      else (.text, if 0 ≤ counter then i64Inc counter else counter)
  | _ => (.text, counter)

/-- Styles assigned to `n` consecutive rows of the sliced window,
starting from counter value `c`. -/
def rowStylesAux (focus : WidgetPosition) (rel : Nat) : Int → Nat → List Style
  | _, 0 => []
  | c, n + 1 =>
      (processRowStyle focus rel c).1 ::
        rowStylesAux focus rel (processRowStyle focus rel c).2 n

/-- Styles assigned by `draw_processes_table` to the `n` visible rows of
the window starting at absolute index `start`, with selection `sel`
(both `u64` values): the counter starts at `0` and the comparison value
is the `u64` difference `sel - start`. -/
def rowStylesCounter (focus : WidgetPosition) (sel start n : Nat) : List Style :=
  rowStylesAux focus (u64Sub sel start) 0 n

/-- The specification formulation (design note in spec §9): compare each
visible row's absolute index `start + j` with the selection directly;
a row is selected exactly when the focus is on the table and its
absolute index equals `sel`. -/
def rowStylesAbs (focus : WidgetPosition) (sel start n : Nat) : List Style :=
  (List.range n).map fun j =>
    if focus = WidgetPosition.Process ∧ start + j = sel then Style.selected else Style.text

theorem i64ToU64_natCast (i : Nat) (h : i < 2 ^ 64) : i64ToU64 (i : Int) = i := by
  unfold i64ToU64
  rw [Int.emod_eq_of_lt (by positivity) (by exact_mod_cast h)]
  exact Int.toNat_natCast i

theorem i64ToU64_neg_one : i64ToU64 (-1) = 2 ^ 64 - 1 := by decide

theorem rowStylesAux_length (focus : WidgetPosition) (rel : Nat) :
    ∀ (c : Int) (n : Nat), (rowStylesAux focus rel c n).length = n := by
  intro c n
  induction n generalizing c with
  | zero => rfl
  | succ m ih => simp [rowStylesAux, ih]

/-- Once the counter is negative and its `u64` cast differs from `rel`,
every remaining row is plain text. -/
theorem rowStylesAux_neg (rel : Nat) (c : Int) (hc : c < 0) (hne : i64ToU64 c ≠ rel) :
    ∀ n, rowStylesAux .Process rel c n = List.replicate n .text := by
  intro n
  induction n with
  | zero => rfl
  | succ m ih =>
      rw [rowStylesAux, processRowStyle, if_neg hne]
      simp only [if_neg (by omega : ¬ (0 : Int) ≤ c)]
      rw [ih, List.replicate_succ]

/-- Helper: a map over `List.range n` that is constantly `.text` is a
replicate. -/
theorem map_range_text (n : Nat) (g : Nat → Style) (h : ∀ j < n, g j = .text) :
    (List.range n).map g = List.replicate n .text := by
  apply List.eq_replicate_iff.2
  constructor
  · simp
  · intro b hb
    rcases List.mem_map.1 hb with ⟨j, hj, rfl⟩
    exact h j (List.mem_range.1 hj)

/-- Main counter invariant: starting from counter value `i` (with
`i + n ≤ 2 ^ 63`, so the `i64` counter never wraps while a row can still
match), the `j`-th produced style is selected exactly when `i + j = rel`. -/
theorem rowStylesAux_run (rel : Nat) :
    ∀ (n i : Nat), i + n ≤ 2 ^ 63 →
      rowStylesAux .Process rel (i : Int) n
        = (List.range n).map fun j => if i + j = rel then Style.selected else Style.text := by
  intro n
  induction n with
  | zero => intro i _; rfl
  | succ m ih =>
      intro i hi
      have hi64 : i64ToU64 (i : Int) = i := i64ToU64_natCast i (by omega)
      rw [rowStylesAux, List.range_succ_eq_map, List.map_cons, List.map_map]
      by_cases hsel : i = rel
      · rw [processRowStyle, hi64, if_pos hsel]
        have htail : rowStylesAux .Process rel (-1) m = List.replicate m .text := by
          apply rowStylesAux_neg rel (-1) (by omega)
          rw [i64ToU64_neg_one]
          omega
        rw [htail]
        have hmap : (List.range m).map ((fun j => if i + j = rel then Style.selected else Style.text) ∘ Nat.succ)
            = List.replicate m .text := by
          apply map_range_text
          intro j _
          simp only [Function.comp_apply]
          rw [if_neg (by omega)]
        rw [hmap]
        simp [hsel]
      · rw [processRowStyle, hi64, if_neg hsel]
        simp only [if_pos (by omega : (0 : Int) ≤ (i : Int))]
        have hhead : (if i + 0 = rel then Style.selected else Style.text) = Style.text := by
          rw [if_neg (by omega)]
        rw [hhead]
        cases m with
        | zero => rfl
        | succ k =>
            have hinc : i64Inc (i : Int) = ((i + 1 : Nat) : Int) := by
              unfold i64Inc
              rw [if_neg (by
                intro hcontra
                have : (i : Int) < 2 ^ 63 - 1 := by
                  have : i + 1 < 2 ^ 63 := by omega
                  exact_mod_cast by omega
                omega)]
              push_cast
              ring
            rw [hinc, ih (i + 1) (by omega)]
            congr 1
            apply List.map_congr_left
            intro j _
            simp only [Function.comp_apply, Nat.succ_eq_add_one]
            have harith : (i + 1) + j = i + (j + 1) := by omega
            rw [harith]

/-- With any focus other than the table, every row is plain text. -/
theorem rowStylesAux_other (focus : WidgetPosition) (hf : focus ≠ .Process) (rel : Nat) :
    ∀ (c : Int) (n : Nat), rowStylesAux focus rel c n = List.replicate n .text := by
  intro c n
  induction n generalizing c with
  | zero => rfl
  | succ m ih =>
      cases focus with
      | Process => exact absurd rfl hf
      | ProcessSearch => simp [rowStylesAux, processRowStyle, ih, List.replicate_succ]
      | Other => simp [rowStylesAux, processRowStyle, ih, List.replicate_succ]

/-- Behavioural equality of the counter formulation and the
absolute-index formulation, for `u64` inputs (`sel, start + n < 2 ^ 64`)
and windows of fewer than `2 ^ 63` rows (so the `i64` counter cannot
wrap). -/
theorem rowStyles_eq (focus : WidgetPosition) (sel start n : Nat)
    (h1 : sel < 2 ^ 64) (h2 : start + n ≤ 2 ^ 64) (h3 : n ≤ 2 ^ 63) :
    rowStylesCounter focus sel start n = rowStylesAbs focus sel start n := by
  by_cases hf : focus = WidgetPosition.Process
  · subst hf
    unfold rowStylesCounter rowStylesAbs
    have h0 : ((0 : Nat) : Int) = (0 : Int) := rfl
    rw [show (0 : Int) = ((0 : Nat) : Int) from rfl]
    rw [rowStylesAux_run (u64Sub sel start) n 0 (by omega)]
    apply List.map_congr_left
    intro j hj
    have hjn : j < n := List.mem_range.1 hj
    have hiff : (0 + j = u64Sub sel start) ↔ (start + j = sel) := by
      unfold u64Sub
      by_cases hss : start ≤ sel
      · have hval : (sel + 2 ^ 64 - start) % 2 ^ 64 = sel - start := by
          have hrw : sel + 2 ^ 64 - start = (sel - start) + 1 * 2 ^ 64 := by omega
          rw [hrw, Nat.add_mul_mod_self_right]
          exact Nat.mod_eq_of_lt (by omega)
        rw [hval]
        omega
      · have hval : (sel + 2 ^ 64 - start) % 2 ^ 64 = 2 ^ 64 - (start - sel) := by
          have hrw : sel + 2 ^ 64 - start = 2 ^ 64 - (start - sel) := by omega
          rw [hrw]
          exact Nat.mod_eq_of_lt (by omega)
        rw [hval]
        omega
    have hsimp : (WidgetPosition.Process = WidgetPosition.Process ∧ start + j = sel) ↔ (start + j = sel) := by
      simp
    rw [if_congr (Iff.trans hiff hsimp.symm) rfl rfl]
  · unfold rowStylesCounter rowStylesAbs
    rw [rowStylesAux_other focus hf]
    symm
    apply map_range_text
    intro j _
    rw [if_neg (by tauto)]

/-- Claim C1: in a table frame, the counter-based row styling of
`draw_processes_table` gives the selected style to exactly the visible
row whose absolute index equals the current scroll position (and only
when the focus is on the table); the counter formulation is
behaviourally equal to comparing each visible row's absolute index with
the selection directly. -/
theorem spec_c1 (focus : WidgetPosition) (sel start n : Nat)
    (h1 : sel < 2 ^ 64) (h2 : start + n ≤ 2 ^ 64) (h3 : n ≤ 2 ^ 63) :
    rowStylesCounter focus sel start n = rowStylesAbs focus sel start n :=
  rowStyles_eq focus sel start n h1 h2 h3

/-- Witness for C1 at a concrete frame: three visible rows starting at
absolute index 1 with the selection at absolute index 2. -/
theorem spec_c1_witness :
    rowStylesCounter WidgetPosition.Process 2 1 3 = rowStylesAbs WidgetPosition.Process 2 1 3 :=
  spec_c1 WidgetPosition.Process 2 1 3 (by decide) (by decide) (by decide)

/-! ### The scroll window (`get_start_position`) and the sanity clamp -/

/-- Scroll direction of the last user scroll (`app::ScrollDirection`). -/
inductive ScrollDirection where
  | up
  | down
  deriving DecidableEq

/-- Modelled from the spec: `get_start_position` lives in
`canvas/drawing_utils.rs`, which is not part of this source slice; this
definition follows spec §4.2 (ScrollWindow).  A resize zeroes the
remembered top (spec §8, resize recentres); the window is recomputed
when resized or when the selection lies outside
`[previous_top, previous_top + viewport_rows)`, moving down to
`max(previous_top, selection - viewport_rows + 1)` and moving up to
`min(previous_top, selection)`.  Returns the chosen top together with
the written-back `previous_top` (always the chosen top).  The clamp
against the row count (spec §4.2 last bullet) is the caller's sanity
check, `clampedStart` below, which is in the source slice. -/
def get_start_position (numRows : Nat) (dir : ScrollDirection) (prevTop sel : Nat)
    (resized : Bool) : Nat × Nat :=
  let prev := if resized then 0 else prevTop
  if resized = true ∨ ¬ (prev ≤ sel ∧ sel < prev + numRows) then
    match dir with
    | .down => (max prev (sel + 1 - numRows), max prev (sel + 1 - numRows))
    | .up => (min prev sel, min prev sel)
  else (prev, prev)

/-- Sanity clamp on the start position (source lines 87-92):
`if position >= len { max(0, len - 1) } else { position }`. -/
def clampedStart (position len : Nat) : Nat :=
  if len ≤ position then len - 1 else position

/-- Visible-row count (source line 71): `max(0, height - 5)` with
truncated subtraction. -/
def numRowsOf (height : Nat) : Nat := height - 5

/-- The scroll state owned by the host (`app_scroll_positions.process_scroll_state`). -/
structure ScrollState where
  previousScrollPosition : Nat
  currentScrollPosition : Nat
  deriving DecidableEq

/-- The observable outcome of one `draw_processes_table` frame that the
claims are about: the styles of the visible rows and the written-back
scroll state. -/
structure TableFrame where
  styles : List Style
  scroll : ScrollState
  deriving DecidableEq

/-- The scroll/row-styling slice of `draw_processes_table`
(source lines 58-132): compute the viewport height, obtain the start
position, apply the sanity clamp, slice the process list from the start
position, and style each visible row with the counter loop.  Only
`previous_scroll_position` is written back; `current_scroll_position`
is read but never written. -/
def draw_processes_table (height len : Nat) (st : ScrollState) (dir : ScrollDirection)
    (resized : Bool) (focus : WidgetPosition) : TableFrame :=
  let numRows := numRowsOf height
  let pr := get_start_position numRows dir st.previousScrollPosition st.currentScrollPosition resized
  let start := clampedStart pr.1 len
  { styles := rowStylesCounter focus st.currentScrollPosition start (len - start)
    scroll := { previousScrollPosition := pr.2
                currentScrollPosition := st.currentScrollPosition } }

/-- Counterexample to C3 as stated: with 3 rows, selection 3 (one past
the end), top 0, direction down, no resize and table focus, the frame
renders with NO selected row; clamping the selection to
`max(0, row_count - 1) = 2` would instead select the last visible row.
The code clamps the start position, not the selection. -/
theorem spec_c3_counterexample :
    (draw_processes_table 10 3 ⟨0, 3⟩ .down false .Process).styles
      ≠ rowStylesAbs .Process (min 3 (3 - 1)) 0 3 := by decide

/-- Claim C3 (amended): when `current_selection ≥ row_count`, the sanity
check clamps the START position to `max(0, row_count - 1)`; the host's
`current_scroll_position` is not mutated, and no visible row receives
the selected style in such a frame. -/
theorem spec_c3 (height len : Nat) (st : ScrollState) (dir : ScrollDirection)
    (resized : Bool) (focus : WidgetPosition)
    (hlen : len ≤ 2 ^ 63) (hsel : st.currentScrollPosition < 2 ^ 64)
    (h : len ≤ st.currentScrollPosition) :
    (draw_processes_table height len st dir resized focus).scroll.currentScrollPosition
        = st.currentScrollPosition
    ∧ (draw_processes_table height len st dir resized focus).styles
        = List.replicate (draw_processes_table height len st dir resized focus).styles.length
            Style.text := by
  constructor
  · rfl
  · show rowStylesCounter focus st.currentScrollPosition _ _
      = List.replicate (rowStylesCounter focus st.currentScrollPosition _ _).length Style.text
    set pos := (get_start_position (numRowsOf height) dir st.previousScrollPosition
      st.currentScrollPosition resized).1 with hpos
    have hstart : clampedStart pos len ≤ len := by
      unfold clampedStart
      split <;> omega
    set start := clampedStart pos len with hstartdef
    have heq : rowStylesCounter focus st.currentScrollPosition start (len - start)
        = rowStylesAbs focus st.currentScrollPosition start (len - start) :=
      rowStyles_eq focus st.currentScrollPosition start (len - start) hsel (by omega) (by omega)
    rw [heq]
    have habs : rowStylesAbs focus st.currentScrollPosition start (len - start)
        = List.replicate (len - start) Style.text := by
      unfold rowStylesAbs
      apply map_range_text
      intro j hjlt
      rw [if_neg]
      rintro ⟨-, habs⟩
      omega
    rw [habs]
    simp

/-- Witness for C3 at a concrete frame: 3 rows, selection 5. -/
theorem spec_c3_witness :
    (draw_processes_table 10 3 ⟨0, 5⟩ .down false .Process).scroll.currentScrollPosition = 5
    ∧ (draw_processes_table 10 3 ⟨0, 5⟩ .down false .Process).styles
        = List.replicate (draw_processes_table 10 3 ⟨0, 5⟩ .down false .Process).styles.length
            Style.text :=
  spec_c3 10 3 ⟨0, 5⟩ .down false .Process (by decide) (by decide) (by decide)

/-- Counterexample to C10 as stated: in a down-direction frame with
remembered top 50, selection 4, no resize, 100 rows and a 5-row
viewport, the clamped start position is 50, which EXCEEDS the current
selection, so the `u64` subtraction `current_scroll_position -
start_position` in the row-styling closure wraps around. -/
theorem spec_c10_counterexample :
    ¬ (clampedStart (get_start_position 5 .down 50 4 false).1 100 ≤ 4) := by decide

/-- Claim C10 (amended): the clamped start position never exceeds the
current selection PROVIDED the frame scrolls up, or the viewport is at
least one row high and either the frame follows a resize or the
remembered top does not exceed the selection.  (Without that proviso
the counterexample above wraps.) -/
theorem spec_c10 (numRows : Nat) (dir : ScrollDirection) (prev sel len : Nat) (resized : Bool)
    (h : dir = .up ∨ (1 ≤ numRows ∧ (resized = true ∨ prev ≤ sel))) :
    clampedStart (get_start_position numRows dir prev sel resized).1 len ≤ sel := by
  have hpos : (get_start_position numRows dir prev sel resized).1 ≤ sel := by
    unfold get_start_position
    cases dir with
    | up =>
        by_cases hin : resized = true ∨ ¬ ((if resized then 0 else prev) ≤ sel
            ∧ sel < (if resized then 0 else prev) + numRows)
        · rw [if_pos hin]
          simp only []
          omega
        · rw [if_neg hin]
          simp only []
          push_neg at hin
          omega
    | down =>
        rcases h with hup | ⟨hnum, hok⟩
        · exact absurd hup (by decide)
        · have hprev : (if resized then 0 else prev) ≤ sel := by
            cases resized with
            | false =>
                rcases hok with hr | hle
                · exact absurd hr (by simp)
                · simpa using hle
            | true => simp
          by_cases hin : resized = true ∨ ¬ ((if resized then 0 else prev) ≤ sel
              ∧ sel < (if resized then 0 else prev) + numRows)
          · rw [if_pos hin]
            simp only []
            omega
          · rw [if_neg hin]
            simp only []
            push_neg at hin
            omega
  unfold clampedStart
  split <;> omega

/-- Witness for C10 at a concrete frame: viewport 5 rows, direction
down, remembered top 0, selection 7. -/
theorem spec_c10_witness :
    clampedStart (get_start_position 5 .down 0 7 false).1 100 ≤ 7 :=
  spec_c10 5 .down 0 7 100 false (Or.inr ⟨by decide, Or.inr (by decide)⟩)

/-! ### The search prompt and viewport width (`draw_search_field`,
source lines 241-275)

The three prompts are ASCII, so the Rust byte length `.len()` agrees
with `String.length` below. -/

def pid_search_text : String := "Search by PID (Tab for Name): "

def name_search_text : String := "Search by Name (Tab for PID): "

def grouped_search_text : String := "Search by Name: "

/-- Prompt choice (source lines 246-252). -/
def chosen_text (isGrouped isSearchingWithPid : Bool) : String :=
  if isGrouped then grouped_search_text
  else if isSearchingWithPid then pid_search_text
  else name_search_text

/-- Prompt fallback (source lines 254-260): keep the chosen prompt when
its length equals `min(num_columns / 2, len)` (that is, when it fits in
half the rectangle width), otherwise fall back to `"> "` (the chosen
prompt is never empty). -/
def search_title (isGrouped isSearchingWithPid : Bool) (numColumns : Nat) : String :=
  let c := chosen_text isGrouped isSearchingWithPid
  if c.length = min (numColumns / 2) c.length then c
  else if c = "" then ""
  else "> "

/-- The `usize` viewport-width expression of source line 270,
`num_columns - num_chars_for_text - 5`, with the possible unsigned
underflow made explicit: `none` when the subtraction underflows (a
panic in debug builds, a wrap to a huge width in release builds). -/
def searchViewportCols (isGrouped isSearchingWithPid : Bool) (numColumns : Nat) : Option Nat :=
  let k := (search_title isGrouped isSearchingWithPid numColumns).length
  if numColumns < k + 5 then none else some (numColumns - k - 5)

/-- Claim C2 (code bug): at rectangle width 0 (grouped mode) the prompt
falls back to `"> "` of length 2, and the `usize` expression
`num_columns - num_chars_for_text - 5 = 0 - 2 - 5` underflows, contrary
to the spec promise that drawing is well-defined for every rectangle
width. -/
theorem spec_c2 : searchViewportCols true false 0 = none := by decide

/-- Claim C7: the prompt is `"Search by Name: "` when grouped,
`"Search by PID (Tab for Name): "` when searching by PID and
`"Search by Name (Tab for PID): "` otherwise; whenever the prompt
length exceeds half the rectangle width it is replaced by `"> "`; in
particular at width 20 in grouped mode the prompt renders as `"> "`. -/
theorem spec_c7 (numColumns : Nat) (pid : Bool) :
    (search_title true pid numColumns
        = if 16 ≤ numColumns / 2 then "Search by Name: " else "> ")
    ∧ (search_title false true numColumns
        = if 30 ≤ numColumns / 2 then "Search by PID (Tab for Name): " else "> ")
    ∧ (search_title false false numColumns
        = if 30 ≤ numColumns / 2 then "Search by Name (Tab for PID): " else "> ")
    ∧ search_title true pid 20 = "> " := by
  refine ⟨?_, ?_, ?_, rfl⟩
  · have hc : chosen_text true pid = "Search by Name: " := rfl
    have hl : ("Search by Name: " : String).length = 16 := by decide
    unfold search_title
    rw [hc]
    simp only [hl]
    by_cases h : 16 ≤ numColumns / 2
    · rw [if_pos h, if_pos (by omega : (16 : Nat) = min (numColumns / 2) 16)]
    · rw [if_neg h, if_neg (by omega : ¬ (16 : Nat) = min (numColumns / 2) 16),
        if_neg (by decide : ¬ ("Search by Name: " : String) = "")]
  · have hc : chosen_text false true = "Search by PID (Tab for Name): " := rfl
    have hl : ("Search by PID (Tab for Name): " : String).length = 30 := by decide
    unfold search_title
    rw [hc]
    simp only [hl]
    by_cases h : 30 ≤ numColumns / 2
    · rw [if_pos h, if_pos (by omega : (30 : Nat) = min (numColumns / 2) 30)]
    · rw [if_neg h, if_neg (by omega : ¬ (30 : Nat) = min (numColumns / 2) 30),
        if_neg (by decide : ¬ ("Search by PID (Tab for Name): " : String) = "")]
  · have hc : chosen_text false false = "Search by Name (Tab for PID): " := rfl
    have hl : ("Search by Name (Tab for PID): " : String).length = 30 := by decide
    unfold search_title
    rw [hc]
    simp only [hl]
    by_cases h : 30 ≤ numColumns / 2
    · rw [if_pos h, if_pos (by omega : (30 : Nat) = min (numColumns / 2) 30)]
    · rw [if_neg h, if_neg (by omega : ¬ (30 : Nat) = min (numColumns / 2) 30),
        if_neg (by decide : ¬ ("Search by Name (Tab for PID): " : String) = "")]

/-! ### The table title (`draw_processes_table`, source lines 171-189) -/

/-- The Rust `"─".repeat n` as a string of `n` copies of a character. -/
def repeatChar (c : Char) (n : Nat) : String := String.mk (List.replicate n c)

/-- `TITLE_BASE` (source line 173): 29 characters. -/
def TITLE_BASE : String := " Processes ── Esc to go back "

/-- Title composition (source lines 171-189): with a border, the title
is `" Processes "` unless the panel is expanded and search is not
enabled, in which case the two halves of `TITLE_BASE` are padded with
`max(0, width - 29 - 2)` extra box-drawing horizontals. -/
def processTitle (drawBorder isExpanded searchEnabled : Bool) (width : Nat) : String :=
  if drawBorder then
    if isExpanded && !searchEnabled then
      " Processes ─" ++ repeatChar '─' (width - TITLE_BASE.length - 2) ++ "─ Esc to go back "
    else " Processes "
  else ""

/-- Counterexample to C8 as stated: at width 10 the padded title still
holds its 29 base characters, not `10 - 2 = 8`. -/
theorem spec_c8_counterexample :
    (processTitle true true false 10).length ≠ 10 - 2 := by decide

theorem repeatChar_length (c : Char) (n : Nat) : (repeatChar c n).length = n := by
  simp [repeatChar, String.length]

/-- Claim C8 (amended): with a border, the title is `" Processes "`
unless the panel is expanded with search disabled, in which case it is
`" Processes ─"`, a run of box-drawing horizontals, then
`"─ Esc to go back "`; its total character count equals `width - 2`
whenever `width ≥ 31` (for narrower rectangles the repeat count clamps
at zero and the title keeps its 29 base characters). -/
theorem spec_c8 (width : Nat) (e s : Bool) (h : 31 ≤ width) :
    processTitle true true false width
        = " Processes ─" ++ repeatChar '─' (width - 31) ++ "─ Esc to go back "
    ∧ (processTitle true true false width).length = width - 2
    ∧ processTitle true e true width = " Processes "
    ∧ processTitle true false s width = " Processes " := by
  have hbase : TITLE_BASE.length = 29 := by decide
  have hform : processTitle true true false width
      = " Processes ─" ++ repeatChar '─' (width - 31) ++ "─ Esc to go back " := by
    unfold processTitle
    rw [if_pos rfl, if_pos (by decide), hbase,
      show width - 29 - 2 = width - 31 from by omega]
  refine ⟨hform, ?_, ?_, ?_⟩
  · rw [hform]
    rw [String.length_append, String.length_append, repeatChar_length]
    have h1 : (" Processes ─" : String).length = 12 := by decide
    have h2 : ("─ Esc to go back " : String).length = 17 := by decide
    rw [h1, h2]
    omega
  · unfold processTitle
    rw [if_pos rfl, if_neg (by simp)]
  · unfold processTitle
    rw [if_pos rfl, if_neg (by simp)]

/-- Witness for C8 at width 40. -/
theorem spec_c8_witness :
    processTitle true true false 40
        = " Processes ─" ++ repeatChar '─' (40 - 31) ++ "─ Esc to go back "
    ∧ (processTitle true true false 40).length = 40 - 2
    ∧ processTitle true true true 40 = " Processes "
    ∧ processTitle true false true 40 = " Processes " :=
  spec_c8 40 true true (by decide)

/-! ### The panel split (`draw_process_and_search`, source lines 40-56) -/

/-- A terminal rectangle (`tui::layout::Rect`). -/
structure Rect where
  x : Nat
  y : Nat
  width : Nat
  height : Nat
  deriving DecidableEq

/-- Modelled from the spec: the vertical `Layout` split with constraints
`[Min(0), Length(sw)]` is solved by the external `tui` crate; spec §4.6
gives the bottom region `sw` rows and the top region the remaining
height.  Clamped when the rectangle is shorter than `sw` rows. -/
def vsplit (r : Rect) (sw : Nat) : Rect × Rect :=
  (⟨r.x, r.y, r.width, r.height - sw⟩,
   ⟨r.x, r.y + (r.height - sw), r.width, min sw r.height⟩)

/-- Render commands issued by `draw_process_and_search`: which widget is
drawn into which rectangle. -/
inductive DrawCmd where
  | table (r : Rect) (drawBorder : Bool)
  | search (r : Rect) (drawBorder : Bool)
  deriving DecidableEq

/-- `draw_process_and_search` (source lines 40-56): the search height is
5 with a border and 3 without; when searching, split vertically and draw
the table into the top chunk and the search field into the bottom chunk,
otherwise draw the table into the whole rectangle. -/
def draw_process_and_search (r : Rect) (isSearching drawBorder : Bool) : List DrawCmd :=
  let searchWidth : Nat := if drawBorder then 5 else 3
  if isSearching then
    [.table (vsplit r searchWidth).1 drawBorder, .search (vsplit r searchWidth).2 drawBorder]
  else
    [.table r drawBorder]

/-- Claim C9: the rectangle is split vertically exactly when searching;
the bottom (search) region is 5 rows high with a border and 3 without,
the table takes the remaining height on top, and without search the
table fills the whole rectangle. -/
theorem spec_c9 (r : Rect) (b : Bool) (h : (if b then 5 else 3) ≤ r.height) :
    draw_process_and_search r true b
        = [DrawCmd.table ⟨r.x, r.y, r.width, r.height - (if b then 5 else 3)⟩ b,
           DrawCmd.search ⟨r.x, r.y + (r.height - (if b then 5 else 3)), r.width,
             if b then 5 else 3⟩ b]
    ∧ draw_process_and_search r false b = [DrawCmd.table r b] := by
  constructor
  · unfold draw_process_and_search vsplit
    rw [if_pos rfl]
    have hmin : min (if b then 5 else 3) r.height = (if b then 5 else 3) :=
      Nat.min_eq_left h
    rw [hmin]
  · unfold draw_process_and_search
    rw [if_neg (by decide)]

/-- Witness for C9 on a 40x10 rectangle with a border. -/
theorem spec_c9_witness :
    draw_process_and_search ⟨0, 0, 40, 10⟩ true true
        = [DrawCmd.table ⟨0, 0, 40, 10 - (if true then 5 else 3)⟩ true,
           DrawCmd.search ⟨0, 0 + (10 - (if true then 5 else 3)), 40,
             if true then 5 else 3⟩ true]
    ∧ draw_process_and_search ⟨0, 0, 40, 10⟩ false true = [DrawCmd.table ⟨0, 0, 40, 10⟩ true] :=
  spec_c9 ⟨0, 0, 40, 10⟩ true (by decide)

/-! ### Grapheme rendering of the search query (`draw_search_field`,
source lines 277-321)

The query is modelled as its list of grapheme clusters, each carrying
its text and its display width (the external segmentation and width
table deliver exactly these).  `grapheme_indices` pairs each grapheme
with its starting byte offset; the renderer walks the pairs keeping a
running display-column total `current_grapheme_posn`, skips a grapheme
while the total stays at or below the left offset `start_position`, and
styles an emitted grapheme by comparing its byte offset with the byte
caret `cursor_position`. -/

/-- A grapheme cluster of the query together with its display width. -/
structure Grapheme where
  s : String
  w : Nat
  deriving DecidableEq

/-- A styled cell of the rendered search line (`Text::styled`). -/
structure Cell where
  s : String
  st : Style
  deriving DecidableEq

/-- `UnicodeSegmentation::grapheme_indices` starting from byte offset
`b`: each grapheme paired with its starting byte offset. -/
def graphemeIndicesAux (b : Nat) : List Grapheme → List (Nat × Grapheme)
  | [] => []
  | g :: gs => (b, g) :: graphemeIndicesAux (b + g.s.utf8ByteSize) gs

/-- `UnicodeSegmentation::grapheme_indices(query, true)` (source line 278). -/
def graphemeIndices (gs : List Grapheme) : List (Nat × Grapheme) := graphemeIndicesAux 0 gs

/-- `query.len()`: the byte length of the query. -/
def byteLen (gs : List Grapheme) : Nat := (gs.map fun g => g.s.utf8ByteSize).sum

/-- Display-column total of the first `j` graphemes. -/
def cumWidth (gs : List Grapheme) (j : Nat) : Nat := ((gs.take j).map fun g => g.w).sum

/-- The `filter_map` loop shared by the two branches of
`query_with_cursor` (source lines 282-297 and 310-320): starting from
running column `posn`, add each grapheme's width, skip it while the
total stays at or below `left`, and otherwise emit it styled by
`styleOf` applied to its byte offset. -/
def emitRun (styleOf : Nat → Style) (left : Nat) : Nat → List (Nat × Grapheme) → List Cell
  | _, [] => []
  | posn, (i, g) :: rest =>
      if posn + g.w ≤ left then emitRun styleOf left (posn + g.w) rest
      else ⟨g.s, styleOf i⟩ :: emitRun styleOf left (posn + g.w) rest

/-- `query_with_cursor` (source lines 280-321): when the focus is on the
search field, an emitted grapheme whose byte offset equals the byte
caret gets the selected style and the rest plain text, and one selected
space is appended when the caret is at or past the end of the query;
without focus every emitted grapheme is plain text and no caret cell is
appended. -/
def query_with_cursor (focusSearch : Bool) (gs : List Grapheme) (cursor left : Nat) :
    List Cell :=
  if focusSearch then
    emitRun (fun i => if i = cursor then .selected else .text) left 0 (graphemeIndices gs)
      ++ (if byteLen gs ≤ cursor then [⟨" ", .selected⟩] else [])
  else
    emitRun (fun _ => .text) left 0 (graphemeIndices gs)

/-- Number of graphemes the left offset scrolls out of view: the length
of the longest prefix whose running display-column total stays at or
below `left`. -/
def dropCount (left : Nat) : Nat → List Grapheme → Nat
  | _, [] => 0
  | posn, g :: gs => if posn + g.w ≤ left then 1 + dropCount left (posn + g.w) gs else 0

/-- Once the running column passes `left`, every remaining grapheme is
emitted. -/
theorem emitRun_all (styleOf : Nat → Style) (left : Nat) :
    ∀ (gs : List Grapheme) (b posn : Nat), left < posn →
      emitRun styleOf left posn (graphemeIndicesAux b gs)
        = (graphemeIndicesAux b gs).map fun ig => Cell.mk ig.2.s (styleOf ig.1) := by
  intro gs
  induction gs with
  | nil => intro b posn _; rfl
  | cons g rest ih =>
      intro b posn hlt
      rw [graphemeIndicesAux, emitRun, if_neg (by omega), List.map_cons]
      rw [ih (b + g.s.utf8ByteSize) (posn + g.w) (by omega)]

/-- The emission loop keeps exactly the graphemes past the drop count,
paired with their byte offsets. -/
theorem emitRun_drop (styleOf : Nat → Style) (left : Nat) :
    ∀ (gs : List Grapheme) (b posn : Nat),
      emitRun styleOf left posn (graphemeIndicesAux b gs)
        = (graphemeIndicesAux (b + byteLen (gs.take (dropCount left posn gs)))
            (gs.drop (dropCount left posn gs))).map
              fun ig => Cell.mk ig.2.s (styleOf ig.1) := by
  intro gs
  induction gs with
  | nil => intro b posn; rfl
  | cons g rest ih =>
      intro b posn
      by_cases hskip : posn + g.w ≤ left
      · rw [graphemeIndicesAux, emitRun, if_pos hskip,
          ih (b + g.s.utf8ByteSize) (posn + g.w)]
        rw [dropCount, if_pos hskip]
        have htake : (g :: rest).take (1 + dropCount left (posn + g.w) rest)
            = g :: rest.take (dropCount left (posn + g.w) rest) := by
          rw [show 1 + dropCount left (posn + g.w) rest
              = dropCount left (posn + g.w) rest + 1 from by omega]
          rfl
        have hdrop : (g :: rest).drop (1 + dropCount left (posn + g.w) rest)
            = rest.drop (dropCount left (posn + g.w) rest) := by
          rw [show 1 + dropCount left (posn + g.w) rest
              = dropCount left (posn + g.w) rest + 1 from by omega]
          rfl
        rw [htake, hdrop]
        have hblen : byteLen (g :: rest.take (dropCount left (posn + g.w) rest))
            = g.s.utf8ByteSize + byteLen (rest.take (dropCount left (posn + g.w) rest)) := by
          unfold byteLen
          rw [List.map_cons, List.sum_cons]
        rw [hblen, ← Nat.add_assoc]
      · rw [graphemeIndicesAux, emitRun, if_neg hskip]
        rw [dropCount, if_neg hskip]
        rw [List.take_zero, List.drop_zero]
        have hblen : byteLen ([] : List Grapheme) = 0 := rfl
        rw [hblen, Nat.add_zero, graphemeIndicesAux, List.map_cons]
        rw [emitRun_all styleOf left rest (b + g.s.utf8ByteSize) (posn + g.w) (by omega)]

/-- Projecting the emitted cells back to their text recovers the
underlying graphemes. -/
theorem map_s_graphemeIndicesAux (styleOf : Nat → Style) (gs : List Grapheme) :
    ∀ b : Nat,
      (((graphemeIndicesAux b gs).map fun ig => Cell.mk ig.2.s (styleOf ig.1)).map Cell.s)
        = gs.map Grapheme.s := by
  induction gs with
  | nil => intro b; rfl
  | cons g rest ih =>
      intro b
      rw [graphemeIndicesAux, List.map_cons, List.map_cons, ih (b + g.s.utf8ByteSize),
        List.map_cons]

/-- Drop-count characterisation: the `j`-th grapheme survives the left
offset exactly when the running display-column total just after it
exceeds `left`. -/
theorem dropCount_le_iff (left : Nat) :
    ∀ (gs : List Grapheme) (posn j : Nat), j < gs.length →
      (dropCount left posn gs ≤ j ↔ left < posn + cumWidth gs (j + 1)) := by
  intro gs
  induction gs with
  | nil => intro posn j hj; simp at hj
  | cons g rest ih =>
      intro posn j hj
      have hcw : cumWidth (g :: rest) (j + 1) = g.w + cumWidth rest j := by
        unfold cumWidth
        rw [List.take_succ_cons, List.map_cons, List.sum_cons]
      by_cases hskip : posn + g.w ≤ left
      · rw [dropCount, if_pos hskip]
        cases j with
        | zero =>
            rw [hcw]
            unfold cumWidth
            simp only [List.take_zero, List.map_nil, List.sum_nil]
            omega
        | succ k =>
            have hrec := ih (posn + g.w) k (by simpa using hj)
            have hcw2 : cumWidth (g :: rest) (k + 1 + 1) = g.w + cumWidth rest (k + 1) := by
              unfold cumWidth
              rw [List.take_succ_cons, List.map_cons, List.sum_cons]
            rw [hcw2]
            omega
      · rw [dropCount, if_neg hskip]
        rw [hcw]
        have hmono : cumWidth rest j ≥ 0 := Nat.zero_le _
        omega

/-- Claim C4: for every query and every left offset, the graphemes
emitted by either branch of the search-field renderer form a contiguous
suffix-aligned substring of the query in the original order (the
focused branch additionally carries the caret space), and a grapheme
survives exactly when the running display-column total just after it
strictly exceeds the left offset. -/
theorem spec_c4 (gs : List Grapheme) (cursor left : Nat) :
    (query_with_cursor false gs cursor left).map Cell.s
        = (gs.drop (dropCount left 0 gs)).map Grapheme.s
    ∧ (query_with_cursor true gs cursor left).map Cell.s
        = (gs.drop (dropCount left 0 gs)).map Grapheme.s
            ++ (if byteLen gs ≤ cursor then [" "] else [])
    ∧ ∀ j, j < gs.length → (dropCount left 0 gs ≤ j ↔ left < cumWidth gs (j + 1)) := by
  refine ⟨?_, ?_, ?_⟩
  · show (emitRun (fun _ => .text) left 0 (graphemeIndicesAux 0 gs)).map Cell.s = _
    rw [emitRun_drop]
    exact map_s_graphemeIndicesAux (fun _ => Style.text) _ _
  · show ((emitRun (fun i => if i = cursor then .selected else .text) left 0
        (graphemeIndicesAux 0 gs)
          ++ (if byteLen gs ≤ cursor then [Cell.mk " " Style.selected] else [])).map Cell.s) = _
    rw [List.map_append, emitRun_drop]
    have hleft := map_s_graphemeIndicesAux (fun i => if i = cursor then Style.selected else Style.text)
      (gs.drop (dropCount left 0 gs)) (0 + byteLen (gs.take (dropCount left 0 gs)))
    rw [hleft]
    congr 1
    by_cases hc : byteLen gs ≤ cursor
    · rw [if_pos hc, if_pos hc]; rfl
    · rw [if_neg hc, if_neg hc]; rfl
  · intro j hj
    have h := dropCount_le_iff left gs 0 j hj
    rwa [Nat.zero_add] at h

/-- Witness for C4 on a concrete query of a wide and a narrow grapheme
with left offset 2: the wide grapheme is scrolled out. -/
theorem spec_c4_witness :
    (query_with_cursor false [⟨"北", 2⟩, ⟨"c", 1⟩] 0 2).map Cell.s
        = (([⟨"北", 2⟩, ⟨"c", 1⟩] : List Grapheme).drop
            (dropCount 2 0 [⟨"北", 2⟩, ⟨"c", 1⟩])).map Grapheme.s :=
  (spec_c4 [⟨"北", 2⟩, ⟨"c", 1⟩] 0 2).1

/-- Counterexample to C5 as stated: query `"ab"` (two one-byte,
one-column graphemes at byte offsets 0 and 1), caret byte 1, left
offset 0, search focus.  The caret lies at or past the starting byte of
BOTH rendered graphemes, so the claim predicts the selected style on
both; the code styles only the grapheme whose byte offset equals the
caret, so `"a"` renders plain. -/
theorem spec_c5_counterexample :
    (query_with_cursor true [⟨"a", 1⟩, ⟨"b", 1⟩] 1 0).map Cell.st
      ≠ [Style.selected, Style.selected] := by decide

/-- Claim C5 (amended): with search focus, a rendered grapheme carries
the selected style exactly when its starting byte offset EQUALS the
byte caret (not: lies at or below it); all other rendered graphemes are
plain, and the byte offsets are the cumulative byte lengths of the
preceding graphemes. -/
theorem spec_c5 (gs : List Grapheme) (cursor left : Nat) :
    query_with_cursor true gs cursor left
      = (graphemeIndicesAux (byteLen (gs.take (dropCount left 0 gs)))
          (gs.drop (dropCount left 0 gs))).map
            (fun ig => Cell.mk ig.2.s (if ig.1 = cursor then Style.selected else Style.text))
        ++ (if byteLen gs ≤ cursor then [Cell.mk " " Style.selected] else []) := by
  show emitRun (fun i => if i = cursor then .selected else .text) left 0
      (graphemeIndicesAux 0 gs) ++ _ = _
  rw [emitRun_drop]
  rw [Nat.zero_add]

/-- Every byte offset produced for a query of nonempty graphemes stays
strictly below the end of the query. -/
theorem graphemeIndicesAux_lt (gs : List Grapheme)
    (hpos : ∀ g ∈ gs, 0 < g.s.utf8ByteSize) :
    ∀ b : Nat, ∀ p ∈ graphemeIndicesAux b gs, p.1 < b + byteLen gs := by
  induction gs with
  | nil => intro b p hp; simp [graphemeIndicesAux] at hp
  | cons g rest ih =>
      intro b p hp
      have hblen : byteLen (g :: rest) = g.s.utf8ByteSize + byteLen rest := by
        unfold byteLen
        rw [List.map_cons, List.sum_cons]
      rw [graphemeIndicesAux] at hp
      rcases List.mem_cons.mp hp with hp1 | hp1
      · rw [hp1, hblen]
        have := hpos g (by simp)
        omega
      · have := ih (fun g' hg' => hpos g' (by simp [hg'])) (b + g.s.utf8ByteSize) p hp1
        rw [hblen]
        omega

/-- The emission loop only looks at the style of offsets it emits. -/
theorem emitRun_congr (left : Nat) :
    ∀ (idx : List (Nat × Grapheme)) (posn : Nat) (f g : Nat → Style),
      (∀ p ∈ idx, f p.1 = g p.1) →
      emitRun f left posn idx = emitRun g left posn idx := by
  intro idx
  induction idx with
  | nil => intro posn f g _; rfl
  | cons p rest ih =>
      intro posn f g hfg
      obtain ⟨i, gg⟩ := p
      rw [emitRun, emitRun]
      have hrest : ∀ q ∈ rest, f q.1 = g q.1 := fun q hq => hfg q (by simp [hq])
      by_cases hskip : posn + gg.w ≤ left
      · rw [if_pos hskip, if_pos hskip, ih (posn + gg.w) f g hrest]
      · rw [if_neg hskip, if_neg hskip, hfg ⟨i, gg⟩ (by simp), ih (posn + gg.w) f g hrest]

/-- Claim C6: with search focus and the byte caret at or past the end of
the query, the rendered cells are exactly the unfocused rendering (all
plain text, since no byte offset can equal the caret) followed by ONE
extra space carrying the selected style. -/
theorem spec_c6 (gs : List Grapheme) (cursor left : Nat)
    (hcur : byteLen gs ≤ cursor) (hpos : ∀ g ∈ gs, 0 < g.s.utf8ByteSize) :
    query_with_cursor true gs cursor left
      = query_with_cursor false gs cursor left ++ [Cell.mk " " Style.selected] := by
  have hfoc : query_with_cursor true gs cursor left
      = emitRun (fun i => if i = cursor then Style.selected else Style.text) left 0
          (graphemeIndices gs) ++ [Cell.mk " " Style.selected] := by
    unfold query_with_cursor
    rw [if_pos (show (true : Bool) = true from rfl), if_pos hcur]
  have hunf : query_with_cursor false gs cursor left
      = emitRun (fun _ => Style.text) left 0 (graphemeIndices gs) := by
    unfold query_with_cursor
    rw [if_neg (show ¬ (false : Bool) = true from by decide)]
  rw [hfoc, hunf]
  congr 1
  apply emitRun_congr
  intro p hp
  have hlt : p.1 < 0 + byteLen gs := graphemeIndicesAux_lt gs hpos 0 p hp
  rw [if_neg (by omega)]

/-- Witness for C6: the concrete scenario of the claim, query `"abc"`
with caret byte 3 and left offset 0: cells `a`, `b`, `c`, then one
selected space. -/
theorem spec_c6_witness :
    query_with_cursor true [⟨"a", 1⟩, ⟨"b", 1⟩, ⟨"c", 1⟩] 3 0
      = [Cell.mk "a" Style.text, Cell.mk "b" Style.text, Cell.mk "c" Style.text,
         Cell.mk " " Style.selected] :=
  (spec_c6 [⟨"a", 1⟩, ⟨"b", 1⟩, ⟨"c", 1⟩] 3 0 (by decide) (by decide)).trans (by decide)

end ProcessTable
